import Mathlib

/-!
Verification of the Lightener brightness-translation engine and group-state
reconciliation, shallowly embedded from `custom_components/lightener/light.py`.

Python integers are modelled as `ℤ` (list entries) or `ℕ` (list indices,
calibration levels, which are provably non-negative).  The interpolation
`math.ceil(a + b * c / d)` is computed by Python in binary floating point;
all quantities involved are integers bounded by 255 in absolute value and the
denominators are bounded by 255, so every intermediate non-integer rational is
at least `1/255` away from any integer while the accumulated floating-point
error is below `2^-40`; hence the float `ceil` agrees with the exact rational
ceiling `⌈·⌉ : ℚ → ℤ`, which is what the embedding uses.
-/

namespace Lightener

/-- Models `_convert_percent_to_brightness` (light.py line 59), which is
`0 if percent == 0 else value_to_brightness((1, 100), percent)`.  The external
helper `homeassistant.util.color.value_to_brightness((1,100), p)` computes
`round(p * (255/100))` in binary floating point with Python banker's rounding.
For `p ∈ [0, 100]` this equals `(102 p + 19) / 40` rounded down (exact ties
such as `p = 50 ↦ 127.5` fall just below the tie in floating point and round
down), except `p = 10`, where the float product is exactly `25.5` and
round-half-to-even yields `26`. -/
def convert_percent_to_brightness (p : ℕ) : ℕ :=
  if p = 0 then 0 else if p = 10 then 26 else (102 * p + 19) / 40

/-- The four lookup structures built by `LightenerControlledLight.__init__`
(light.py lines 360-439), together with the `previous_lightener_level` /
`previous_light_level` cursor used while building.  List entries are `ℤ`
(Python ints); `levels`/`levels_on_off` are indexed by controller level,
`to_lightener_levels`/`to_lightener_levels_on_off` by entity light level. -/
structure BuildState where
  levels : List ℤ
  levels_on_off : List ℤ
  to_lightener_levels : List (List ℤ)
  to_lightener_levels_on_off : List (List ℤ)
  prevC : ℕ
  prevL : ℕ
  deriving Repr, DecidableEq

/-- Models `to_lightener_levels[idx].append(x)` on a Python list of lists. -/
def setApp (ls : List (List ℤ)) (idx : ℕ) (x : ℤ) : List (List ℤ) :=
  ls.set idx (ls.getD idx [] ++ [x])

/-- Models `255 if value > 0 else 0` — the on/off collapse used throughout the build. -/
def onOffCollapse (v : ℤ) : ℤ := if 0 < v then 255 else 0

/-- Ceiling division `⌈a / b⌉` for `b ≠ 0`, computed with the Euclidean
division `/` of `ℤ` (`cdiv_eq_ceil` below relates it to the rational
ceiling). -/
def cdiv (a b : ℤ) : ℤ := if 0 < b then -((-a) / b) else -(a / (-b))

/-- Models `math.ceil(y0 + (y1 - y0) * (i - x0) / (x1 - x0))`: since `y0` is an
integer, this is `y0 + ⌈(y1 - y0) (i - x0) / (x1 - x0)⌉`, over exact rationals
(see the file header for why this matches the Python float computation). -/
def interpValue (x0 y0 x1 y1 i : ℕ) : ℤ :=
  (y0 : ℤ) + cdiv (((y1 : ℤ) - (y0 : ℤ)) * ((i : ℤ) - (x0 : ℤ))) ((x1 : ℤ) - (x0 : ℤ))

/-- Python `range(a, b)` (ascending, `b` excluded). -/
def pyRange (a b : ℕ) : List ℕ := List.range' a (b - a)

/-- Python `range(a, b, -1)` (descending, `b` excluded). -/
def pyRangeDown (a b : ℕ) : List ℕ := (List.range' (b + 1) (a - b)).reverse

/-- The index list of the inverse-interpolation loop (light.py lines 413-417):
`range(previous_light_level, light_level, 1 if previous_light_level < light_level else -1)`. -/
def revRange (prevL L : ℕ) : List ℕ :=
  if prevL < L then List.range' prevL (L - prevL) else pyRangeDown prevL L

/-- Body of the forward interpolation loop (light.py lines 387-401), executed
for one controller level `i` strictly between `prevC` and `C`. -/
def forwardStep (C L : ℕ) (st : BuildState) (i : ℕ) : BuildState :=
  let v := interpValue st.prevC st.prevL C L i
  { st with
    levels := st.levels ++ [v]
    to_lightener_levels := setApp st.to_lightener_levels v.toNat (i : ℤ)
    levels_on_off := st.levels_on_off ++ [onOffCollapse v]
    to_lightener_levels_on_off :=
      setApp st.to_lightener_levels_on_off (onOffCollapse v).toNat (i : ℤ) }

/-- Body of the inverse interpolation loop (light.py lines 413-431), executed
for one entity light level `i` between `prevL` (included) and `L` (excluded);
the computed controller level is appended only if not already present. -/
def reverseStep (C L : ℕ) (st : BuildState) (i : ℕ) : BuildState :=
  if interpValue st.prevL st.prevC L C i ∈ st.to_lightener_levels.getD i [] then st
  else
    { st with
      to_lightener_levels :=
        setApp st.to_lightener_levels i (interpValue st.prevL st.prevC L C i)
      to_lightener_levels_on_off :=
        setApp st.to_lightener_levels_on_off
          (onOffCollapse (interpValue st.prevL st.prevC L C i)).toNat
          (interpValue st.prevL st.prevC L C i) }

/-- The recording of the calibration point itself (light.py lines 403-410):
the configured value is stored directly, bypassing interpolation. -/
def pointAppend (C L : ℕ) (st1 : BuildState) : BuildState :=
  { st1 with
    levels := st1.levels ++ [(L : ℤ)]
    to_lightener_levels := setApp st1.to_lightener_levels L (C : ℤ)
    levels_on_off := st1.levels_on_off ++ [onOffCollapse (L : ℤ)]
    to_lightener_levels_on_off :=
      setApp st1.to_lightener_levels_on_off (onOffCollapse (L : ℤ)).toNat (C : ℤ) }

/-- One iteration of the outer loop over the sorted calibration points
(light.py lines 384-434): forward interpolation for the interior controller
levels, the exact value at the calibration point itself, the inverse
interpolation over the spanned light levels, then the cursor update. -/
def processPoint (st : BuildState) (C L : ℕ) : BuildState :=
  { (revRange st.prevL L).foldl (reverseStep C L)
      (pointAppend C L ((pyRange (st.prevC + 1) C).foldl (forwardStep C L) st)) with
    prevC := C
    prevL := L }

/-- The state before the first calibration point: `levels = [0]`,
`levels_on_off = [0]`, 256 empty reverse buckets, cursor at `(0, 0)`. -/
def initState : BuildState :=
  { levels := [0]
    levels_on_off := [0]
    to_lightener_levels := List.replicate 256 []
    to_lightener_levels_on_off := List.replicate 256 []
    prevC := 0
    prevL := 0 }

/-- Runs the whole table construction over the sorted converted calibration
points (the iteration over `config_levels.items()`). -/
def buildTables (pts : List (ℕ × ℕ)) : BuildState :=
  pts.foldl (fun st p => processPoint st p.1 p.2) initState

/-- Python `dict` insertion: overwrite the value if the key is present,
otherwise append the pair. -/
def dictInsert (d : List (ℕ × ℕ)) (k v : ℕ) : List (ℕ × ℕ) :=
  if d.any (fun p => p.1 = k) then d.map (fun p => if p.1 = k then (k, v) else p)
  else d ++ [(k, v)]

/-- Models `config_levels.setdefault(255, 255)`. -/
def setdefault255 (d : List (ℕ × ℕ)) : List (ℕ × ℕ) :=
  if d.any (fun p => p.1 = 255) then d else d ++ [(255, 255)]

/-- The converted, defaulted and key-sorted calibration table built from the
raw percent table (light.py lines 360-369): percent conversion of both sides
of each entry, `setdefault(255, 255)`, then `OrderedDict(sorted(...))`. -/
def mkConfigLevels (cfg : List (ℕ × ℕ)) : List (ℕ × ℕ) :=
  List.insertionSort (fun a b => a.1 ≤ b.1)
    (setdefault255
      (cfg.foldl
        (fun d p =>
          dictInsert d (convert_percent_to_brightness p.1)
            (convert_percent_to_brightness p.2))
        []))

/-- Models `LightenerControlledLight.translate_brightness` (light.py lines 461-467).
`isOnOff = true` models `self.type == TYPE_ONOFF` (the lazily resolved light
kind); the claims about dimmable lights use `isOnOff = false`. -/
def translate_brightness (tb : BuildState) (isOnOff : Bool) (b : ℕ) : ℤ :=
  if isOnOff then tb.levels_on_off.getD b 0 else tb.levels.getD b 0

/-- Models `LightenerControlledLight.translate_brightness_back` (light.py lines
469-477): `none` (Python `None`) maps to the empty list. -/
def translate_brightness_back (tb : BuildState) (isOnOff : Bool) (b : Option ℕ) :
    List ℤ :=
  match b with
  | none => []
  | some b =>
      if isOnOff then tb.to_lightener_levels_on_off.getD b []
      else tb.to_lightener_levels.getD b []

/-- The calibration point preceding index `k`: the previous table entry, or
the implicit starting cursor `(0, 0)` for the first entry. -/
def prevPt (pts : List (ℕ × ℕ)) (k : ℕ) : ℕ × ℕ :=
  if k = 0 then (0, 0) else pts.getD (k - 1) (0, 0)

/-! ### Arithmetic facts about the ceiling division `cdiv` -/

theorem cdiv_le_iff {b : ℤ} (a c : ℤ) (hb : 0 < b) : cdiv a b ≤ c ↔ a ≤ b * c := by
  unfold cdiv
  rw [if_pos hb, neg_le, Int.le_ediv_iff_mul_le hb]
  constructor <;> intro h <;> nlinarith [h]

theorem le_cdiv_iff {b : ℤ} (a c : ℤ) (hb : 0 < b) : c ≤ cdiv a b ↔ b * (c - 1) < a := by
  constructor
  · intro h
    by_contra hcon
    push_neg at hcon
    have := (cdiv_le_iff a (c - 1) hb).2 hcon
    omega
  · intro h
    by_contra hcon
    push_neg at hcon
    have := (cdiv_le_iff a (c - 1) hb).1 (by omega)
    omega

theorem cdiv_neg_den (a b : ℤ) (hb : b < 0) : cdiv a b = cdiv (-a) (-b) := by
  unfold cdiv
  rw [if_neg (by omega), if_pos (by omega), neg_neg]

theorem cdiv_eq_ceil_pos (a b : ℤ) (hb : 0 < b) : cdiv a b = ⌈(a : ℚ) / (b : ℚ)⌉ := by
  have hbq : (0 : ℚ) < (b : ℚ) := by exact_mod_cast hb
  refine le_antisymm ?_ ?_
  · rw [Int.le_ceil_iff, lt_div_iff₀ hbq]
    have h1 : b * (cdiv a b - 1) < a := (le_cdiv_iff a (cdiv a b) hb).1 le_rfl
    have h1i : b * cdiv a b - b < a := by nlinarith [h1]
    have h1q : (b : ℚ) * ((cdiv a b : ℤ) : ℚ) - b < (a : ℚ) := by exact_mod_cast h1i
    nlinarith [h1q]
  · rw [Int.ceil_le, div_le_iff₀ hbq]
    have h2 : a ≤ b * cdiv a b := (cdiv_le_iff a (cdiv a b) hb).1 le_rfl
    have h2q : (a : ℚ) ≤ (b : ℚ) * ((cdiv a b : ℤ) : ℚ) := by exact_mod_cast h2
    nlinarith [h2q]

/-- The function `cdiv` computes the rational ceiling `⌈a / b⌉` for every nonzero `b`. -/
theorem cdiv_eq_ceil (a b : ℤ) (hb : b ≠ 0) : cdiv a b = ⌈(a : ℚ) / (b : ℚ)⌉ := by
  rcases lt_or_gt_of_ne hb with hneg | hpos
  · rw [cdiv_neg_den a b hneg]
    have heq : (a : ℚ) / (b : ℚ) = ((-a : ℤ) : ℚ) / ((-b : ℤ) : ℚ) := by
      have hb1 : ((b : ℚ)) ≠ 0 := by exact_mod_cast hb
      have hb2 : (((-b : ℤ) : ℚ)) ≠ 0 := by
        exact_mod_cast (show (-b : ℤ) ≠ 0 by omega)
      rw [div_eq_div_iff hb1 hb2]
      push_cast
      ring
    rw [heq]
    exact cdiv_eq_ceil_pos (-a) (-b) (by omega)
  · exact cdiv_eq_ceil_pos a b hpos

theorem one_le_cdiv {a b : ℤ} (ha : 0 < a) (hb : 0 < b) : 1 ≤ cdiv a b :=
  (le_cdiv_iff a 1 hb).2 (by simpa using ha)

/-- The interpolated value never drops below `0` whenever `x0 < i ≤ x1`
(it stays between the two endpoint values, which are natural numbers). -/
theorem interpValue_nonneg {x0 y0 x1 y1 i : ℕ} (hx : x0 < i) (hi : i ≤ x1) :
    0 ≤ interpValue x0 y0 x1 y1 i := by
  have hden : (0 : ℤ) < (x1 : ℤ) - (x0 : ℤ) := by
    have : x0 < x1 := lt_of_lt_of_le hx hi
    omega
  have hnum1 : (0 : ℤ) < (i : ℤ) - (x0 : ℤ) := by omega
  have hnum2 : (i : ℤ) - (x0 : ℤ) ≤ (x1 : ℤ) - (x0 : ℤ) := by omega
  have hy0 : (0 : ℤ) ≤ (y0 : ℤ) := Int.natCast_nonneg y0
  have hy1 : (0 : ℤ) ≤ (y1 : ℤ) := Int.natCast_nonneg y1
  unfold interpValue
  rcases le_or_lt (y0 : ℤ) (y1 : ℤ) with h | h
  · have hc : (0 : ℤ) ≤ cdiv (((y1 : ℤ) - y0) * ((i : ℤ) - x0)) ((x1 : ℤ) - x0) :=
      (le_cdiv_iff _ 0 hden).2 (by nlinarith)
    omega
  · have hc : ((y1 : ℤ) - y0) ≤ cdiv (((y1 : ℤ) - y0) * ((i : ℤ) - x0)) ((x1 : ℤ) - x0) :=
      (le_cdiv_iff _ ((y1 : ℤ) - y0) hden).2 (by nlinarith)
    omega

/-- The interpolated value never exceeds `255` whenever `x0 < i ≤ x1` and
both endpoint values are at most `255`. -/
theorem interpValue_le {x0 y0 x1 y1 i : ℕ} (hx : x0 < i) (hi : i ≤ x1)
    (h0 : y0 ≤ 255) (h1 : y1 ≤ 255) : interpValue x0 y0 x1 y1 i ≤ 255 := by
  have hden : (0 : ℤ) < (x1 : ℤ) - (x0 : ℤ) := by
    have : x0 < x1 := lt_of_lt_of_le hx hi
    omega
  have hnum1 : (0 : ℤ) < (i : ℤ) - (x0 : ℤ) := by omega
  have hnum2 : (i : ℤ) - (x0 : ℤ) ≤ (x1 : ℤ) - (x0 : ℤ) := by omega
  have hy0 : (y0 : ℤ) ≤ 255 := by exact_mod_cast h0
  have hy1 : (y1 : ℤ) ≤ 255 := by exact_mod_cast h1
  unfold interpValue
  rcases le_or_lt (y0 : ℤ) (y1 : ℤ) with h | h
  · have hc : cdiv (((y1 : ℤ) - y0) * ((i : ℤ) - x0)) ((x1 : ℤ) - x0) ≤ (y1 : ℤ) - y0 :=
      (cdiv_le_iff _ ((y1 : ℤ) - y0) hden).2 (by nlinarith)
    omega
  · have hc : cdiv (((y1 : ℤ) - y0) * ((i : ℤ) - x0)) ((x1 : ℤ) - x0) ≤ 0 :=
      (cdiv_le_iff _ 0 hden).2 (by nlinarith)
    omega

/-- When the segment rises from light level `y0` to a strictly larger `y1`,
every interior interpolated value is strictly positive as soon as `y0` is. -/
theorem interpValue_pos {x0 y0 x1 y1 i : ℕ} (hx : x0 < i) (hi : i ≤ x1)
    (hy : 0 < y1) (h0 : y0 = 0) : 0 < interpValue x0 y0 x1 y1 i := by
  have hden : (0 : ℤ) < (x1 : ℤ) - (x0 : ℤ) := by
    have : x0 < x1 := lt_of_lt_of_le hx hi
    omega
  unfold interpValue
  subst h0
  have : 1 ≤ cdiv (((y1 : ℤ) - 0) * ((i : ℤ) - x0)) ((x1 : ℤ) - x0) :=
    one_le_cdiv (by nlinarith [hy, hx]) hden
  push_cast
  omega

/-! ### List helpers -/

theorem getD_append_left {α : Type} {l l' : List α} {i : ℕ} (d : α)
    (h : i < l.length) : (l ++ l').getD i d = l.getD i d := by
  rw [List.getD_eq_getElem?_getD, List.getD_eq_getElem?_getD, List.getElem?_append,
    if_pos h]

theorem getD_append_right {α : Type} {l l' : List α} {i : ℕ} (d : α)
    (h : l.length ≤ i) : (l ++ l').getD i d = l'.getD (i - l.length) d := by
  rw [List.getD_eq_getElem?_getD, List.getD_eq_getElem?_getD, List.getElem?_append,
    if_neg (by omega)]

theorem mem_pyRange {a b i : ℕ} (h : a ≤ b) : i ∈ pyRange a b ↔ a ≤ i ∧ i < b := by
  unfold pyRange
  rw [List.mem_range'_1]
  omega

theorem pyRange_length (a b : ℕ) : (pyRange a b).length = b - a := by
  simp [pyRange]

theorem pyRange_getD (a b i : ℕ) (h : i < b - a) :
    (pyRange a b).getD i 0 = a + i := by
  unfold pyRange
  rw [List.getD_eq_getElem?_getD, List.getElem?_range' _ _ h]
  simp

/-! ### Field-tracking lemmas for the build steps -/

theorem setApp_length (ls : List (List ℤ)) (i : ℕ) (x : ℤ) :
    (setApp ls i x).length = ls.length := List.length_set ls i _

theorem getD_setApp_ne (ls : List (List ℤ)) {i j : ℕ} (x : ℤ) (h : i ≠ j) :
    (setApp ls i x).getD j [] = ls.getD j [] := by
  unfold setApp
  rw [List.getD_eq_getElem?_getD, List.getElem?_set_ne h, ← List.getD_eq_getElem?_getD]

theorem getD_setApp_self (ls : List (List ℤ)) {i : ℕ} (x : ℤ) (h : i < ls.length) :
    (setApp ls i x).getD i [] = ls.getD i [] ++ [x] := by
  unfold setApp
  rw [List.getD_eq_getElem?_getD, List.getElem?_set_self h]
  rfl

theorem mem_getD_setApp {ls : List (List ℤ)} {j : ℕ} {y : ℤ} (i : ℕ) (x : ℤ)
    (h : y ∈ ls.getD j []) : y ∈ (setApp ls i x).getD j [] := by
  rcases eq_or_ne i j with rfl | hne
  · rcases lt_or_le i ls.length with hlt | hge
    · rw [getD_setApp_self ls x hlt]
      exact List.mem_append_left _ h
    · have : ls.getD i [] = [] := by
        rw [List.getD_eq_getElem?_getD, List.getElem?_eq_none (by omega)]
        rfl
      rw [this] at h
      exact absurd h (List.not_mem_nil y)
  · rwa [getD_setApp_ne ls x hne]

theorem forwardStep_prevC (C L : ℕ) (st : BuildState) (i : ℕ) :
    (forwardStep C L st i).prevC = st.prevC := rfl

theorem forwardStep_prevL (C L : ℕ) (st : BuildState) (i : ℕ) :
    (forwardStep C L st i).prevL = st.prevL := rfl

theorem forwardStep_levels (C L : ℕ) (st : BuildState) (i : ℕ) :
    (forwardStep C L st i).levels =
      st.levels ++ [interpValue st.prevC st.prevL C L i] := rfl

theorem forwardStep_levels_on_off (C L : ℕ) (st : BuildState) (i : ℕ) :
    (forwardStep C L st i).levels_on_off =
      st.levels_on_off ++ [onOffCollapse (interpValue st.prevC st.prevL C L i)] := rfl

theorem forwardStep_tll (C L : ℕ) (st : BuildState) (i : ℕ) :
    (forwardStep C L st i).to_lightener_levels =
      setApp st.to_lightener_levels (interpValue st.prevC st.prevL C L i).toNat
        (i : ℤ) := rfl

theorem reverseStep_prevC (C L : ℕ) (st : BuildState) (i : ℕ) :
    (reverseStep C L st i).prevC = st.prevC := by
  unfold reverseStep
  split <;> rfl

theorem reverseStep_prevL (C L : ℕ) (st : BuildState) (i : ℕ) :
    (reverseStep C L st i).prevL = st.prevL := by
  unfold reverseStep
  split <;> rfl

theorem reverseStep_levels (C L : ℕ) (st : BuildState) (i : ℕ) :
    (reverseStep C L st i).levels = st.levels := by
  unfold reverseStep
  split <;> rfl

theorem reverseStep_levels_on_off (C L : ℕ) (st : BuildState) (i : ℕ) :
    (reverseStep C L st i).levels_on_off = st.levels_on_off := by
  unfold reverseStep
  split <;> rfl

theorem reverseStep_tll_length (C L : ℕ) (st : BuildState) (i : ℕ) :
    (reverseStep C L st i).to_lightener_levels.length =
      st.to_lightener_levels.length := by
  unfold reverseStep
  split
  · rfl
  · exact setApp_length _ _ _

/-! ### Fold-level lemmas for the forward interpolation loop -/

theorem fwdFold_prevC (C L : ℕ) (l : List ℕ) (st : BuildState) :
    (l.foldl (forwardStep C L) st).prevC = st.prevC := by
  induction l generalizing st with
  | nil => rfl
  | cons a t ih => rw [List.foldl_cons, ih]; rfl

theorem fwdFold_prevL (C L : ℕ) (l : List ℕ) (st : BuildState) :
    (l.foldl (forwardStep C L) st).prevL = st.prevL := by
  induction l generalizing st with
  | nil => rfl
  | cons a t ih => rw [List.foldl_cons, ih]; rfl

theorem fwdFold_levels (C L : ℕ) (l : List ℕ) (st : BuildState) :
    (l.foldl (forwardStep C L) st).levels =
      st.levels ++ l.map (fun i => interpValue st.prevC st.prevL C L i) := by
  induction l generalizing st with
  | nil => simp
  | cons a t ih =>
      rw [List.foldl_cons, ih, List.map_cons, forwardStep_levels,
        forwardStep_prevC, forwardStep_prevL, List.append_assoc]
      rfl

theorem fwdFold_levels_on_off (C L : ℕ) (l : List ℕ) (st : BuildState) :
    (l.foldl (forwardStep C L) st).levels_on_off =
      st.levels_on_off ++
        l.map (fun i => onOffCollapse (interpValue st.prevC st.prevL C L i)) := by
  induction l generalizing st with
  | nil => simp
  | cons a t ih =>
      rw [List.foldl_cons, ih, List.map_cons, forwardStep_levels_on_off,
        forwardStep_prevC, forwardStep_prevL, List.append_assoc]
      rfl

theorem fwdFold_tll_length (C L : ℕ) (l : List ℕ) (st : BuildState) :
    (l.foldl (forwardStep C L) st).to_lightener_levels.length =
      st.to_lightener_levels.length := by
  induction l generalizing st with
  | nil => rfl
  | cons a t ih => rw [List.foldl_cons, ih, forwardStep_tll, setApp_length]

theorem revFold_prevC (C L : ℕ) (l : List ℕ) (st : BuildState) :
    (l.foldl (reverseStep C L) st).prevC = st.prevC := by
  induction l generalizing st with
  | nil => rfl
  | cons a t ih => rw [List.foldl_cons, ih, reverseStep_prevC]

theorem revFold_prevL (C L : ℕ) (l : List ℕ) (st : BuildState) :
    (l.foldl (reverseStep C L) st).prevL = st.prevL := by
  induction l generalizing st with
  | nil => rfl
  | cons a t ih => rw [List.foldl_cons, ih, reverseStep_prevL]

theorem revFold_levels (C L : ℕ) (l : List ℕ) (st : BuildState) :
    (l.foldl (reverseStep C L) st).levels = st.levels := by
  induction l generalizing st with
  | nil => rfl
  | cons a t ih => rw [List.foldl_cons, ih, reverseStep_levels]

theorem revFold_levels_on_off (C L : ℕ) (l : List ℕ) (st : BuildState) :
    (l.foldl (reverseStep C L) st).levels_on_off = st.levels_on_off := by
  induction l generalizing st with
  | nil => rfl
  | cons a t ih => rw [List.foldl_cons, ih, reverseStep_levels_on_off]

theorem revFold_tll_length (C L : ℕ) (l : List ℕ) (st : BuildState) :
    (l.foldl (reverseStep C L) st).to_lightener_levels.length =
      st.to_lightener_levels.length := by
  induction l generalizing st with
  | nil => rfl
  | cons a t ih => rw [List.foldl_cons, ih, reverseStep_tll_length]

/-! ### Reverse-bucket membership is monotone along the construction -/

/-- Relation `tllLe ls ls'`: every controller level recorded in a bucket of `ls` is
still recorded in the same bucket of `ls'` (the construction only appends). -/
def tllLe (ls ls' : List (List ℤ)) : Prop :=
  ∀ j : ℕ, ∀ y : ℤ, y ∈ ls.getD j [] → y ∈ ls'.getD j []

theorem tllLe_refl (ls : List (List ℤ)) : tllLe ls ls := fun _ _ h => h

theorem tllLe_trans {a b c : List (List ℤ)} (h1 : tllLe a b) (h2 : tllLe b c) :
    tllLe a c := fun j y h => h2 j y (h1 j y h)

theorem tllLe_setApp (ls : List (List ℤ)) (i : ℕ) (x : ℤ) :
    tllLe ls (setApp ls i x) := fun _ _ h => mem_getD_setApp i x h

theorem forwardStep_tllLe (C L : ℕ) (st : BuildState) (i : ℕ) :
    tllLe st.to_lightener_levels (forwardStep C L st i).to_lightener_levels := by
  rw [forwardStep_tll]
  exact tllLe_setApp _ _ _

theorem reverseStep_tllLe (C L : ℕ) (st : BuildState) (i : ℕ) :
    tllLe st.to_lightener_levels (reverseStep C L st i).to_lightener_levels := by
  unfold reverseStep
  split
  · exact tllLe_refl _
  · exact tllLe_setApp _ _ _

theorem fwdFold_tllLe (C L : ℕ) (l : List ℕ) (st : BuildState) :
    tllLe st.to_lightener_levels
      (l.foldl (forwardStep C L) st).to_lightener_levels := by
  induction l generalizing st with
  | nil => exact tllLe_refl _
  | cons a t ih =>
      rw [List.foldl_cons]
      exact tllLe_trans (forwardStep_tllLe C L st a) (ih _)

theorem revFold_tllLe (C L : ℕ) (l : List ℕ) (st : BuildState) :
    tllLe st.to_lightener_levels
      (l.foldl (reverseStep C L) st).to_lightener_levels := by
  induction l generalizing st with
  | nil => exact tllLe_refl _
  | cons a t ih =>
      rw [List.foldl_cons]
      exact tllLe_trans (reverseStep_tllLe C L st a) (ih _)

theorem pointAppend_tllLe (C L : ℕ) (st1 : BuildState) :
    tllLe st1.to_lightener_levels (pointAppend C L st1).to_lightener_levels :=
  tllLe_setApp _ _ _

theorem processPoint_tll_eq (st : BuildState) (C L : ℕ) :
    (processPoint st C L).to_lightener_levels =
      ((revRange st.prevL L).foldl (reverseStep C L)
        (pointAppend C L
          ((pyRange (st.prevC + 1) C).foldl (forwardStep C L) st))).to_lightener_levels :=
  rfl

theorem processPoint_levels_eq (st : BuildState) (C L : ℕ) :
    (processPoint st C L).levels =
      ((pyRange (st.prevC + 1) C).foldl (forwardStep C L) st).levels ++ [(L : ℤ)] := by
  show ((revRange st.prevL L).foldl (reverseStep C L) _).levels = _
  rw [revFold_levels]
  rfl

theorem processPoint_levels_on_off_eq (st : BuildState) (C L : ℕ) :
    (processPoint st C L).levels_on_off =
      ((pyRange (st.prevC + 1) C).foldl (forwardStep C L) st).levels_on_off ++
        [onOffCollapse (L : ℤ)] := by
  show ((revRange st.prevL L).foldl (reverseStep C L) _).levels_on_off = _
  rw [revFold_levels_on_off]
  rfl

theorem processPoint_prevC (st : BuildState) (C L : ℕ) :
    (processPoint st C L).prevC = C := rfl

theorem processPoint_prevL (st : BuildState) (C L : ℕ) :
    (processPoint st C L).prevL = L := rfl

theorem processPoint_tllLe (st : BuildState) (C L : ℕ) :
    tllLe st.to_lightener_levels (processPoint st C L).to_lightener_levels := by
  rw [processPoint_tll_eq]
  exact tllLe_trans (fwdFold_tllLe C L (pyRange (st.prevC + 1) C) st)
    (tllLe_trans (pointAppend_tllLe C L _) (revFold_tllLe C L (revRange st.prevL L) _))

/-- Controller level `i` is recorded in the bucket of its own interpolated
value by the forward loop. -/
theorem fwdFold_mem (C L : ℕ) (l : List ℕ) (st : BuildState) (i : ℕ)
    (hmem : i ∈ l)
    (hidx : (interpValue st.prevC st.prevL C L i).toNat <
      st.to_lightener_levels.length) :
    (i : ℤ) ∈ (l.foldl (forwardStep C L) st).to_lightener_levels.getD
      (interpValue st.prevC st.prevL C L i).toNat [] := by
  induction l generalizing st with
  | nil => exact absurd hmem (List.not_mem_nil i)
  | cons a t ih =>
      rw [List.foldl_cons]
      rcases List.mem_cons.1 hmem with rfl | hmem'
      · refine fwdFold_tllLe C L t _ _ _ ?_
        rw [forwardStep_tll, getD_setApp_self _ _ hidx]
        exact List.mem_append_right _ (List.mem_singleton.2 rfl)
      · have := ih (forwardStep C L st a) hmem'
        rw [forwardStep_prevC, forwardStep_prevL] at this
        exact this (by
          rw [forwardStep_tll, setApp_length]
          exact hidx)

/-! ### Effect of one `processPoint` iteration -/

theorem of_mem_pyRange {a b i : ℕ} (h : i ∈ pyRange a b) : a ≤ i ∧ i < b := by
  unfold pyRange at h
  rw [List.mem_range'_1] at h
  omega

theorem getD_map_interp {l : List ℕ} {k : ℕ} (f : ℕ → ℤ) (h : k < l.length) :
    (l.map f).getD k 0 = f (l.getD k 0) := by
  rw [List.getD_eq_getElem?_getD, List.getD_eq_getElem?_getD, List.getElem?_map,
    List.getElem?_eq_getElem h]
  rfl

theorem fwdFold_levels_length (C L : ℕ) (st : BuildState) :
    ((pyRange (st.prevC + 1) C).foldl (forwardStep C L) st).levels.length =
      st.levels.length + (C - (st.prevC + 1)) := by
  rw [fwdFold_levels, List.length_append, List.length_map, pyRange_length]

theorem processPoint_levels_length (st : BuildState) (C L : ℕ)
    (h1 : st.levels.length = st.prevC + 1) (h2 : st.prevC < C) :
    (processPoint st C L).levels.length = C + 1 := by
  rw [processPoint_levels_eq, List.length_append, fwdFold_levels_length, h1]
  simp
  omega

theorem processPoint_levels_getD_lt (st : BuildState) (C L : ℕ) {i : ℕ}
    (h : i < st.levels.length) :
    (processPoint st C L).levels.getD i 0 = st.levels.getD i 0 := by
  rw [processPoint_levels_eq, fwdFold_levels, List.append_assoc,
    getD_append_left 0 h]

theorem processPoint_levels_getD_interior (st : BuildState) (C L : ℕ) {i : ℕ}
    (h1 : st.levels.length = st.prevC + 1) (h2 : st.prevC < i) (h3 : i < C) :
    (processPoint st C L).levels.getD i 0 = interpValue st.prevC st.prevL C L i := by
  rw [processPoint_levels_eq, fwdFold_levels, List.append_assoc,
    getD_append_right 0 (by omega), h1]
  have hidx : i - (st.prevC + 1) < (pyRange (st.prevC + 1) C).length := by
    rw [pyRange_length]; omega
  rw [getD_append_left 0 (by rwa [List.length_map]),
    getD_map_interp _ (by rw [pyRange_length]; omega), pyRange_getD _ _ _ (by omega)]
  congr 1
  omega

theorem processPoint_levels_getD_point (st : BuildState) (C L : ℕ)
    (h1 : st.levels.length = st.prevC + 1) (h2 : st.prevC < C) :
    (processPoint st C L).levels.getD C 0 = (L : ℤ) := by
  rw [processPoint_levels_eq, getD_append_right 0 (by rw [fwdFold_levels_length, h1]; omega)]
  rw [fwdFold_levels_length, h1]
  have : C - (st.prevC + 1 + (C - (st.prevC + 1))) = 0 := by omega
  rw [this]
  rfl

theorem processPoint_tll_length (st : BuildState) (C L : ℕ) :
    (processPoint st C L).to_lightener_levels.length =
      st.to_lightener_levels.length := by
  rw [processPoint_tll_eq, revFold_tll_length]
  show (setApp _ _ _).length = _
  rw [setApp_length, fwdFold_tll_length]

theorem forwardStep_tlloo (C L : ℕ) (st : BuildState) (i : ℕ) :
    (forwardStep C L st i).to_lightener_levels_on_off =
      setApp st.to_lightener_levels_on_off
        (onOffCollapse (interpValue st.prevC st.prevL C L i)).toNat (i : ℤ) := rfl

theorem reverseStep_tlloo_length (C L : ℕ) (st : BuildState) (i : ℕ) :
    (reverseStep C L st i).to_lightener_levels_on_off.length =
      st.to_lightener_levels_on_off.length := by
  unfold reverseStep
  split
  · rfl
  · exact setApp_length _ _ _

theorem fwdFold_tlloo_length (C L : ℕ) (l : List ℕ) (st : BuildState) :
    (l.foldl (forwardStep C L) st).to_lightener_levels_on_off.length =
      st.to_lightener_levels_on_off.length := by
  induction l generalizing st with
  | nil => rfl
  | cons a t ih => rw [List.foldl_cons, ih, forwardStep_tlloo, setApp_length]

theorem revFold_tlloo_length (C L : ℕ) (l : List ℕ) (st : BuildState) :
    (l.foldl (reverseStep C L) st).to_lightener_levels_on_off.length =
      st.to_lightener_levels_on_off.length := by
  induction l generalizing st with
  | nil => rfl
  | cons a t ih => rw [List.foldl_cons, ih, reverseStep_tlloo_length]

theorem processPoint_tlloo_length (st : BuildState) (C L : ℕ) :
    (processPoint st C L).to_lightener_levels_on_off.length =
      st.to_lightener_levels_on_off.length := by
  show ((revRange st.prevL L).foldl (reverseStep C L) _).to_lightener_levels_on_off.length = _
  rw [revFold_tlloo_length]
  show (setApp _ _ _).length = _
  rw [setApp_length, fwdFold_tlloo_length]

theorem processPoint_oo (st : BuildState) (C L : ℕ)
    (hoo : st.levels_on_off = st.levels.map onOffCollapse) :
    (processPoint st C L).levels_on_off =
      (processPoint st C L).levels.map onOffCollapse := by
  rw [processPoint_levels_eq, processPoint_levels_on_off_eq, fwdFold_levels,
    fwdFold_levels_on_off, hoo]
  simp [List.map_append, Function.comp]

theorem processPoint_bounds (st : BuildState) (C L : ℕ)
    (hb : ∀ v ∈ st.levels, 0 ≤ v ∧ v ≤ 255) (_hC : C ≤ 255) (hL : L ≤ 255)
    (hpl : st.prevL ≤ 255) :
    ∀ v ∈ (processPoint st C L).levels, 0 ≤ v ∧ v ≤ 255 := by
  rw [processPoint_levels_eq, fwdFold_levels]
  intro v hv
  rcases List.mem_append.1 hv with hv' | hv'
  · rcases List.mem_append.1 hv' with h0 | h0
    · exact hb v h0
    · obtain ⟨i, hi, rfl⟩ := List.mem_map.1 h0
      obtain ⟨hia, hib⟩ := of_mem_pyRange hi
      exact ⟨interpValue_nonneg (by omega) (by omega),
        interpValue_le (by omega) (by omega) hpl hL⟩
  · rw [List.mem_singleton.1 hv']
    constructor
    · positivity
    · exact_mod_cast hL

theorem processPoint_first0 (st : BuildState) (C L : ℕ)
    (h : st.levels.getD 0 0 = 0) (hlen : 0 < st.levels.length) :
    (processPoint st C L).levels.getD 0 0 = 0 := by
  rw [processPoint_levels_getD_lt st C L hlen, h]

theorem interpValue_toNat_lt {x0 y0 x1 y1 i : ℕ} (hx : x0 < i) (hi : i ≤ x1)
    (h0 : y0 ≤ 255) (h1 : y1 ≤ 255) : (interpValue x0 y0 x1 y1 i).toNat < 256 := by
  have ha := @interpValue_nonneg x0 y0 x1 y1 i hx hi
  have hb := interpValue_le hx hi h0 h1
  omega

theorem processPoint_roundtrip_new (st : BuildState) (C L : ℕ)
    (h1 : st.levels.length = st.prevC + 1) (h2 : st.prevC < C) (_hC : C ≤ 255)
    (hL : L ≤ 255) (hpl : st.prevL ≤ 255)
    (hlen : st.to_lightener_levels.length = 256) :
    ∀ c, st.prevC < c → c ≤ C →
      (c : ℤ) ∈ (processPoint st C L).to_lightener_levels.getD
        ((processPoint st C L).levels.getD c 0).toNat [] := by
  intro c hc1 hc2
  rcases eq_or_lt_of_le hc2 with rfl | hlt
  · rw [processPoint_levels_getD_point st c L h1 h2, Int.toNat_natCast,
      processPoint_tll_eq]
    refine revFold_tllLe c L _ _ _ _ ?_
    show (c : ℤ) ∈ (setApp _ L (c : ℤ)).getD L []
    rw [getD_setApp_self _ _ (by rw [fwdFold_tll_length, hlen]; omega)]
    exact List.mem_append_right _ (List.mem_singleton.2 rfl)
  · rw [processPoint_levels_getD_interior st C L h1 hc1 hlt, processPoint_tll_eq]
    refine revFold_tllLe C L _ _ _ _ ?_
    refine pointAppend_tllLe C L _ _ _ ?_
    exact fwdFold_mem C L _ st c ((mem_pyRange (by omega)).2 ⟨by omega, hlt⟩)
      (by rw [hlen]; exact interpValue_toNat_lt hc1 (by omega) hpl hL)

/-! ### The construction invariant, proved over the whole point list -/

/-- Well-formedness of a converted point list processed by the build loop:
strictly increasing keys, keys in `[1, 255]`, values at most `255`. -/
def ValidChain (pts : List (ℕ × ℕ)) : Prop :=
  pts.Pairwise (fun a b => a.1 < b.1) ∧ ∀ p ∈ pts, 1 ≤ p.1 ∧ p.1 ≤ 255 ∧ p.2 ≤ 255

/-- Everything `buildTables` guarantees after processing `pts`: cursor
position, table sizes, entry bounds, the on/off tables as pointwise collapse
of the dimmable ones, the exact piecewise-interpolation description of
`levels`, and the forward-then-back roundtrip membership. -/
structure BuildSpec (pts : List (ℕ × ℕ)) (st : BuildState) : Prop where
  prevC_eq : st.prevC = (pts.getLastD (0, 0)).1
  prevL_eq : st.prevL = (pts.getLastD (0, 0)).2
  len_levels : st.levels.length = st.prevC + 1
  len_tll : st.to_lightener_levels.length = 256
  len_tlloo : st.to_lightener_levels_on_off.length = 256
  oo_map : st.levels_on_off = st.levels.map onOffCollapse
  bounds : ∀ v ∈ st.levels, 0 ≤ v ∧ v ≤ 255
  first0 : st.levels.getD 0 0 = 0
  seg : ∀ k, k < pts.length →
      (∀ i, (prevPt pts k).1 < i → i < (pts.getD k (0, 0)).1 →
        st.levels.getD i 0 =
          interpValue (prevPt pts k).1 (prevPt pts k).2
            (pts.getD k (0, 0)).1 (pts.getD k (0, 0)).2 i) ∧
      st.levels.getD (pts.getD k (0, 0)).1 0 = ((pts.getD k (0, 0)).2 : ℤ)
  roundtrip : ∀ c, 1 ≤ c → c ≤ st.prevC →
      (c : ℤ) ∈ st.to_lightener_levels.getD (st.levels.getD c 0).toNat []

theorem getD_eq_get {l : List (ℕ × ℕ)} {k : ℕ} (h : k < l.length) :
    l.getD k (0, 0) = l.get ⟨k, h⟩ := by
  rw [List.getD_eq_getElem?_getD, List.getElem?_eq_getElem h]
  rfl

theorem getLastD_mem {l : List (ℕ × ℕ)} (h : l ≠ []) : l.getLastD (0, 0) ∈ l := by
  rw [List.getLastD_eq_getLast?, List.getLast?_eq_getLast l h]
  exact List.getLast_mem h

theorem getD_last {l : List (ℕ × ℕ)} (h : l ≠ []) :
    l.getD (l.length - 1) (0, 0) = l.getLastD (0, 0) := by
  rw [List.getLastD_eq_getLast?, List.getLast?_eq_getLast l h,
    getD_eq_get (by
      have := List.length_pos.2 h
      omega)]
  rw [List.getLast_eq_getElem]
  rfl

theorem getLastD_concat (l : List (ℕ × ℕ)) (p : ℕ × ℕ) :
    (l ++ [p]).getLastD (0, 0) = p := by
  rw [List.getLastD_eq_getLast?, List.getLast?_concat]
  rfl

theorem getD_concat_lt {l : List (ℕ × ℕ)} (p : ℕ × ℕ) {k : ℕ} (h : k < l.length) :
    (l ++ [p]).getD k (0, 0) = l.getD k (0, 0) := getD_append_left _ h

theorem getD_concat_self (l : List (ℕ × ℕ)) (p : ℕ × ℕ) :
    (l ++ [p]).getD l.length (0, 0) = p := by
  rw [getD_append_right _ le_rfl, Nat.sub_self]
  rfl

theorem prevPt_concat_lt {l : List (ℕ × ℕ)} (p : ℕ × ℕ) {k : ℕ} (h : k < l.length) :
    prevPt (l ++ [p]) k = prevPt l k := by
  unfold prevPt
  rcases eq_or_ne k 0 with rfl | hne
  · rfl
  · rw [if_neg hne, if_neg hne, getD_concat_lt p (by omega)]

theorem prevPt_concat_last (l : List (ℕ × ℕ)) (p : ℕ × ℕ) :
    prevPt (l ++ [p]) l.length = l.getLastD (0, 0) := by
  unfold prevPt
  rcases eq_or_ne l.length 0 with h0 | hne
  · rw [if_pos h0, List.length_eq_zero.1 h0]
    rfl
  · rw [if_neg hne, getD_concat_lt p (by omega), getD_last (by
      intro hnil
      exact hne (by rw [hnil]; rfl))]

theorem key_le_getLastD {l : List (ℕ × ℕ)}
    (hp : l.Pairwise (fun a b => a.1 < b.1)) {k : ℕ} (h : k < l.length) :
    (l.getD k (0, 0)).1 ≤ (l.getLastD (0, 0)).1 := by
  have hne : l ≠ [] := by
    intro hnil
    rw [hnil] at h
    exact absurd h (by simp)
  rw [← getD_last hne]
  rcases eq_or_lt_of_le (show k ≤ l.length - 1 by omega) with heq | hlt
  · rw [heq]
  · rw [getD_eq_get h, getD_eq_get (show l.length - 1 < l.length by omega)]
    exact le_of_lt (List.pairwise_iff_get.1 hp ⟨k, h⟩ ⟨l.length - 1, by omega⟩ hlt)

theorem validChain_concat {l : List (ℕ × ℕ)} {p : ℕ × ℕ}
    (h : ValidChain (l ++ [p])) :
    ValidChain l ∧ (∀ a ∈ l, a.1 < p.1) ∧ 1 ≤ p.1 ∧ p.1 ≤ 255 ∧ p.2 ≤ 255 := by
  obtain ⟨hpw, hbd⟩ := h
  obtain ⟨hl, _, hcross⟩ := List.pairwise_append.1 hpw
  refine ⟨⟨hl, fun q hq => hbd q (List.mem_append_left _ hq)⟩, ?_, ?_⟩
  · intro a ha
    exact hcross a ha p (List.mem_singleton.2 rfl)
  · exact hbd p (List.mem_append_right _ (List.mem_singleton.2 rfl))

theorem lastD_lt_concat {l : List (ℕ × ℕ)} {p : ℕ × ℕ}
    (hcross : ∀ a ∈ l, a.1 < p.1) (hp1 : 1 ≤ p.1) :
    (l.getLastD (0, 0)).1 < p.1 := by
  rcases eq_or_ne l [] with rfl | hne
  · simpa using hp1
  · exact hcross _ (getLastD_mem hne)

theorem buildTables_concat (pts : List (ℕ × ℕ)) (p : ℕ × ℕ) :
    buildTables (pts ++ [p]) = processPoint (buildTables pts) p.1 p.2 :=
  List.foldl_concat _ _ p pts

/-- The master invariant: the tables built from any valid point chain satisfy
`BuildSpec`. -/
theorem buildTables_spec (pts : List (ℕ × ℕ)) (hv : ValidChain pts) :
    BuildSpec pts (buildTables pts) := by
  induction pts using List.reverseRecOn with
  | nil =>
      refine ⟨rfl, rfl, rfl, ?_, ?_, rfl, ?_, rfl, ?_, ?_⟩
      · show (List.replicate 256 ([] : List ℤ)).length = 256
        rw [List.length_replicate]
      · show (List.replicate 256 ([] : List ℤ)).length = 256
        rw [List.length_replicate]
      · intro v hv'
        rw [List.mem_singleton.1 hv']
        exact ⟨le_rfl, by omega⟩
      · intro k hk
        exact absurd hk (by simp)
      · intro c h1 h2
        have h0 : (buildTables []).prevC = 0 := rfl
        omega
  | append_singleton l p ih =>
      obtain ⟨hvl, hcross, hp1, hpk, hpv⟩ := validChain_concat hv
      have S := ih hvl
      rw [buildTables_concat]
      have hlast : (buildTables l).prevC < p.1 := by
        rw [S.prevC_eq]
        exact lastD_lt_concat hcross hp1
      have hpl255 : (buildTables l).prevL ≤ 255 := by
        rw [S.prevL_eq]
        rcases eq_or_ne l [] with rfl | hne
        · simp
        · exact (hvl.2 _ (getLastD_mem hne)).2.2
      refine ⟨?_, ?_, ?_, ?_, ?_, ?_, ?_, ?_, ?_, ?_⟩
      · rw [processPoint_prevC, getLastD_concat]
      · rw [processPoint_prevL, getLastD_concat]
      · rw [processPoint_prevC, processPoint_levels_length _ _ _ S.len_levels hlast]
      · rw [processPoint_tll_length, S.len_tll]
      · rw [processPoint_tlloo_length, S.len_tlloo]
      · exact processPoint_oo _ _ _ S.oo_map
      · exact processPoint_bounds _ _ _ S.bounds hpk hpv hpl255
      · exact processPoint_first0 _ _ _ S.first0 (by rw [S.len_levels]; omega)
      · intro k hk
        rw [List.length_append, List.length_singleton] at hk
        rcases lt_or_ge k l.length with hkl | hkl
        · rw [getD_concat_lt p hkl, prevPt_concat_lt p hkl]
          have hkey : (l.getD k (0, 0)).1 ≤ (buildTables l).prevC := by
            rw [S.prevC_eq]
            exact key_le_getLastD hvl.1 hkl
          constructor
          · intro i hi1 hi2
            rw [processPoint_levels_getD_lt _ _ _ (by rw [S.len_levels]; omega)]
            exact (S.seg k hkl).1 i hi1 hi2
          · rw [processPoint_levels_getD_lt _ _ _ (by rw [S.len_levels]; omega)]
            exact (S.seg k hkl).2
        · have hk' : k = l.length := by omega
          subst hk'
          rw [getD_concat_self, prevPt_concat_last]
          constructor
          · intro i hi1 hi2
            exact processPoint_levels_getD_interior _ _ _ S.len_levels
              (by rw [S.prevC_eq]; exact hi1) hi2 |>.trans
              (by rw [S.prevC_eq, S.prevL_eq])
          · exact processPoint_levels_getD_point _ _ _ S.len_levels hlast
      · intro c h1c h2c
        rw [processPoint_prevC] at h2c
        rcases le_or_lt c (buildTables l).prevC with hle | hgt
        · rw [processPoint_levels_getD_lt _ _ _ (by rw [S.len_levels]; omega)]
          exact processPoint_tllLe _ _ _ _ _ (S.roundtrip c h1c hle)
        · exact processPoint_roundtrip_new _ _ _ S.len_levels hlast hpk hpv
            hpl255 S.len_tll c hgt h2c

/-! ### Corollaries of the invariant -/

/-- Validity of a full converted calibration table as produced by
`mkConfigLevels`: a valid chain that is non-empty and ends at key `255`
(guaranteed by `setdefault(255, 255)`). -/
def ValidConfig (pts : List (ℕ × ℕ)) : Prop :=
  ValidChain pts ∧ pts ≠ [] ∧ (pts.getLastD (0, 0)).1 = 255

theorem buildTables_prevC_255 {pts : List (ℕ × ℕ)} (hv : ValidConfig pts) :
    (buildTables pts).prevC = 255 := by
  rw [(buildTables_spec pts hv.1).prevC_eq, hv.2.2]

theorem buildTables_levels_length {pts : List (ℕ × ℕ)} (hv : ValidConfig pts) :
    (buildTables pts).levels.length = 256 := by
  rw [(buildTables_spec pts hv.1).len_levels, buildTables_prevC_255 hv]

/-- The dimmable forward table maps controller level `0` to `0` for every
point chain (the list is started as `[0]` and only ever appended to). -/
theorem buildTables_getD_zero {pts : List (ℕ × ℕ)} (hv : ValidChain pts) :
    (buildTables pts).levels.getD 0 0 = 0 :=
  (buildTables_spec pts hv).first0

/-- The forward table stores the configured value of each calibration point
exactly (light.py lines 403-404). -/
theorem buildTables_point_value {pts : List (ℕ × ℕ)} (hv : ValidChain pts)
    {k : ℕ} (hk : k < pts.length) :
    (buildTables pts).levels.getD (pts.getD k (0, 0)).1 0 =
      ((pts.getD k (0, 0)).2 : ℤ) :=
  ((buildTables_spec pts hv).seg k hk).2

theorem getD_mem_levels {l : List ℤ} {k : ℕ} (h : k < l.length) :
    l.getD k 0 ∈ l := by
  rw [List.getD_eq_getElem?_getD, List.getElem?_eq_getElem h]
  exact List.get_mem l k h

theorem getD_map_collapse {l : List ℤ} {k : ℕ} (h : k < l.length) :
    (l.map onOffCollapse).getD k 0 = onOffCollapse (l.getD k 0) := by
  rw [List.getD_eq_getElem?_getD, List.getD_eq_getElem?_getD, List.getElem?_map,
    List.getElem?_eq_getElem h]
  rfl

/-- The on/off forward table is the pointwise collapse of the dimmable one:
`0` where the dimmable value is `0`, `255` everywhere else. -/
theorem buildTables_onoff_pointwise {pts : List (ℕ × ℕ)} (hv : ValidChain pts)
    (c : ℕ) :
    (buildTables pts).levels_on_off.getD c 0 =
      (if (buildTables pts).levels.getD c 0 = 0 then 0 else 255) := by
  have S := buildTables_spec pts hv
  rcases lt_or_ge c (buildTables pts).levels.length with hc | hc
  · rw [S.oo_map, getD_map_collapse hc]
    have hb := S.bounds _ (getD_mem_levels hc)
    unfold onOffCollapse
    rcases eq_or_lt_of_le hb.1 with h0 | hpos
    · rw [if_neg (by omega), if_pos (by omega)]
    · rw [if_pos hpos, if_neg (by omega)]
  · have h1 : (buildTables pts).levels.getD c 0 = 0 := by
      rw [List.getD_eq_getElem?_getD, List.getElem?_eq_none (by omega)]
      rfl
    have h2 : (buildTables pts).levels_on_off.getD c 0 = 0 := by
      rw [List.getD_eq_getElem?_getD, List.getElem?_eq_none (by
        rw [S.oo_map, List.length_map]
        omega)]
      rfl
    rw [h1, h2, if_pos rfl]

/-- Round-trip: every controller level `c ∈ [1, 255]` is recorded in the
reverse bucket of its own forward value. -/
theorem buildTables_roundtrip {pts : List (ℕ × ℕ)} (hv : ValidConfig pts)
    {c : ℕ} (h1 : 1 ≤ c) (h2 : c ≤ 255) :
    (c : ℤ) ∈ (buildTables pts).to_lightener_levels.getD
      ((buildTables pts).levels.getD c 0).toNat [] :=
  (buildTables_spec pts hv.1).roundtrip c h1 (by rw [buildTables_prevC_255 hv]; omega)

/-! ### Targeted preservation lemmas for single reverse buckets -/

theorem fwdFold_tll_getD_ne (C L j : ℕ) (l : List ℕ) (st : BuildState)
    (h : ∀ i ∈ l, (interpValue st.prevC st.prevL C L i).toNat ≠ j) :
    (l.foldl (forwardStep C L) st).to_lightener_levels.getD j [] =
      st.to_lightener_levels.getD j [] := by
  induction l generalizing st with
  | nil => rfl
  | cons a t ih =>
      rw [List.foldl_cons]
      rw [ih (forwardStep C L st a) (by
        intro i hi
        rw [forwardStep_prevC, forwardStep_prevL]
        exact h i (List.mem_cons_of_mem a hi))]
      rw [forwardStep_tll, getD_setApp_ne _ _ (h a (List.mem_cons_self a t))]

theorem reverseStep_tll_getD_ne (C L : ℕ) (st : BuildState) {i j : ℕ}
    (h : i ≠ j) :
    (reverseStep C L st i).to_lightener_levels.getD j [] =
      st.to_lightener_levels.getD j [] := by
  unfold reverseStep
  split
  · rfl
  · exact getD_setApp_ne _ _ h

theorem revFold_tll_getD_ne (C L j : ℕ) (l : List ℕ) (st : BuildState)
    (h : ∀ i ∈ l, i ≠ j) :
    (l.foldl (reverseStep C L) st).to_lightener_levels.getD j [] =
      st.to_lightener_levels.getD j [] := by
  induction l generalizing st with
  | nil => rfl
  | cons a t ih =>
      rw [List.foldl_cons,
        ih (reverseStep C L st a) (fun i hi => h i (List.mem_cons_of_mem a hi)),
        reverseStep_tll_getD_ne C L st (h a (List.mem_cons_self a t))]

theorem reverseStep_skip (C L : ℕ) (st : BuildState) (i : ℕ)
    (h : interpValue st.prevL st.prevC L C i ∈ st.to_lightener_levels.getD i []) :
    reverseStep C L st i = st := by
  unfold reverseStep
  rw [if_pos h]

/-! ### `mkConfigLevels` produces a valid configuration -/

theorem conv_lt_conv : ∀ q, q < 101 → ∀ p, p < q →
    convert_percent_to_brightness p < convert_percent_to_brightness q := by
  decide

theorem conv_le_255 : ∀ p, p < 101 → convert_percent_to_brightness p ≤ 255 := by
  decide

theorem conv_pos : ∀ p, p < 101 → 1 ≤ p → 1 ≤ convert_percent_to_brightness p := by
  decide

theorem conv_ne_conv {p q : ℕ} (hp : p ≤ 100) (hq : q ≤ 100) (hne : p ≠ q) :
    convert_percent_to_brightness p ≠ convert_percent_to_brightness q := by
  rcases lt_or_gt_of_ne hne with h | h
  · exact Nat.ne_of_lt (conv_lt_conv q (by omega) p h)
  · exact (Nat.ne_of_lt (conv_lt_conv p (by omega) q h)).symm

/-- Both components of a calibration entry, converted. -/
def convPair (p : ℕ × ℕ) : ℕ × ℕ :=
  (convert_percent_to_brightness p.1, convert_percent_to_brightness p.2)

theorem dict_fold_eq (cfg : List (ℕ × ℕ)) :
    ∀ acc : List (ℕ × ℕ),
      (∀ p ∈ cfg, ∀ q ∈ acc, q.1 ≠ convert_percent_to_brightness p.1) →
      cfg.Pairwise (fun a b =>
        convert_percent_to_brightness a.1 ≠ convert_percent_to_brightness b.1) →
      cfg.foldl
        (fun d p =>
          dictInsert d (convert_percent_to_brightness p.1)
            (convert_percent_to_brightness p.2)) acc =
        acc ++ cfg.map convPair := by
  induction cfg with
  | nil => intro acc _ _; simp
  | cons a t ih =>
      intro acc hfresh hpw
      rw [List.foldl_cons]
      have hnotin : acc.any (fun q => q.1 = convert_percent_to_brightness a.1) = false := by
        rw [List.any_eq_false]
        intro q hq
        simpa using hfresh a (List.mem_cons_self a t) q hq
      have hins : dictInsert acc (convert_percent_to_brightness a.1)
          (convert_percent_to_brightness a.2) = acc ++ [convPair a] := by
        unfold dictInsert
        rw [if_neg (by rw [hnotin]; exact Bool.false_ne_true)]
        rfl
      rw [hins, ih (acc ++ [convPair a])
        (by
          intro p hp q hq
          rcases List.mem_append.1 hq with hq' | hq'
          · exact hfresh p (List.mem_cons_of_mem a hp) q hq'
          · rw [List.mem_singleton.1 hq']
            exact (List.pairwise_cons.1 hpw).1 p hp)
        (List.pairwise_cons.1 hpw).2]
      rw [List.append_assoc, List.singleton_append, List.map_cons]

theorem mem_key_le_getLastD {l : List (ℕ × ℕ)}
    (hp : l.Pairwise (fun a b => a.1 < b.1)) {p : ℕ × ℕ} (hm : p ∈ l) :
    p.1 ≤ (l.getLastD (0, 0)).1 := by
  obtain ⟨⟨k, hk⟩, rfl⟩ := List.mem_iff_get.1 hm
  rw [← getD_eq_get hk]
  exact key_le_getLastD hp hk

theorem getLastD_key_of_max {l : List (ℕ × ℕ)}
    (hp : l.Pairwise (fun a b => a.1 < b.1)) {q : ℕ × ℕ} (hq : q ∈ l)
    (hq255 : q.1 = 255) (hle : ∀ p ∈ l, p.1 ≤ 255) :
    (l.getLastD (0, 0)).1 = 255 := by
  have hne : l ≠ [] := List.ne_nil_of_mem hq
  have h1 : 255 ≤ (l.getLastD (0, 0)).1 := by
    rw [← hq255]
    exact mem_key_le_getLastD hp hq
  have h2 : (l.getLastD (0, 0)).1 ≤ 255 := hle _ (getLastD_mem hne)
  omega

/-- Any percent table with keys in `[1, 100]` (pairwise distinct, as in a
Python `dict`) and values in `[0, 100]` yields a `ValidConfig` after
conversion, `setdefault(255, 255)` and sorting. -/
theorem mkConfigLevels_valid (cfg : List (ℕ × ℕ))
    (hk : ∀ p ∈ cfg, 1 ≤ p.1 ∧ p.1 ≤ 100 ∧ p.2 ≤ 100)
    (hdist : cfg.Pairwise (fun a b => a.1 ≠ b.1)) :
    ValidConfig (mkConfigLevels cfg) := by
  have hpwconv : cfg.Pairwise (fun a b =>
      convert_percent_to_brightness a.1 ≠ convert_percent_to_brightness b.1) := by
    refine List.Pairwise.imp_of_mem ?_ hdist
    intro a b ha hb hne
    exact conv_ne_conv (hk a ha).2.1 (hk b hb).2.1 hne
  have hd : cfg.foldl
      (fun d p =>
        dictInsert d (convert_percent_to_brightness p.1)
          (convert_percent_to_brightness p.2)) [] = cfg.map convPair :=
    dict_fold_eq cfg [] (by intro p _ q hq; exact absurd hq (List.not_mem_nil q)) hpwconv
  set d : List (ℕ × ℕ) := cfg.map convPair with hd_def
  -- properties of the un-defaulted dictionary
  have hd_bounds : ∀ p ∈ d, 1 ≤ p.1 ∧ p.1 ≤ 255 ∧ p.2 ≤ 255 := by
    intro p hp
    obtain ⟨a, ha, rfl⟩ := List.mem_map.1 hp
    obtain ⟨ha1, ha2, ha3⟩ := hk a ha
    exact ⟨conv_pos a.1 (by omega) ha1, conv_le_255 a.1 (by omega),
      conv_le_255 a.2 (by omega)⟩
  have hd_pw : d.Pairwise (fun a b => a.1 ≠ b.1) := by
    rw [hd_def]
    exact List.pairwise_map.2 hpwconv
  -- setdefault(255, 255)
  set e := setdefault255 d with he_def
  have he_bounds : ∀ p ∈ e, 1 ≤ p.1 ∧ p.1 ≤ 255 ∧ p.2 ≤ 255 := by
    intro p hp
    rw [he_def] at hp
    unfold setdefault255 at hp
    by_cases hany : d.any (fun q => q.1 = 255) = true
    · rw [if_pos hany] at hp
      exact hd_bounds p hp
    · rw [if_neg hany] at hp
      rcases List.mem_append.1 hp with h | h
      · exact hd_bounds p h
      · rw [List.mem_singleton.1 h]
        omega
  have he_pw : e.Pairwise (fun a b => a.1 ≠ b.1) := by
    rw [he_def]
    unfold setdefault255
    by_cases hany : d.any (fun q => q.1 = 255) = true
    · rw [if_pos hany]
      exact hd_pw
    · rw [if_neg hany]
      rw [List.pairwise_append]
      refine ⟨hd_pw, List.pairwise_singleton _ _, ?_⟩
      intro a ha b hb
      rw [List.mem_singleton.1 hb]
      rw [Bool.not_eq_true, List.any_eq_false] at hany
      simpa using hany a ha
  have he_mem255 : ∃ q ∈ e, q.1 = 255 := by
    rw [he_def]
    unfold setdefault255
    by_cases hany : d.any (fun q => q.1 = 255) = true
    · rw [if_pos hany]
      obtain ⟨x, hx, hx255⟩ := List.any_eq_true.1 hany
      exact ⟨x, hx, by simpa using hx255⟩
    · rw [if_neg hany]
      exact ⟨(255, 255), List.mem_append_right _ (List.mem_singleton.2 rfl), rfl⟩
  -- sorting
  letI : IsTotal (ℕ × ℕ) (fun a b => a.1 ≤ b.1) := ⟨fun a b => Nat.le_total a.1 b.1⟩
  letI : IsTrans (ℕ × ℕ) (fun a b => a.1 ≤ b.1) := ⟨fun _ _ _ h1 h2 => le_trans h1 h2⟩
  have hperm : (List.insertionSort (fun a b => a.1 ≤ b.1) e).Perm e :=
    List.perm_insertionSort _ e
  have hsorted : List.Sorted (fun a b => a.1 ≤ b.1)
      (List.insertionSort (fun a b => a.1 ≤ b.1) e) :=
    List.sorted_insertionSort _ e
  have hs_ne : (List.insertionSort (fun a b => a.1 ≤ b.1) e).Pairwise
      (fun a b => a.1 ≠ b.1) :=
    (List.Perm.pairwise_iff (fun h => h.symm) hperm).2 he_pw
  have hs_lt : (List.insertionSort (fun a b => a.1 ≤ b.1) e).Pairwise
      (fun a b => a.1 < b.1) := by
    refine (List.Pairwise.and hsorted hs_ne).imp ?_
    intro a b hab
    omega
  have hs_bounds : ∀ p ∈ List.insertionSort (fun a b => a.1 ≤ b.1) e,
      1 ≤ p.1 ∧ p.1 ≤ 255 ∧ p.2 ≤ 255 := by
    intro p hp
    exact he_bounds p (hperm.mem_iff.1 hp)
  obtain ⟨q, hq, hq255⟩ := he_mem255
  have hq' : q ∈ List.insertionSort (fun a b => a.1 ≤ b.1) e := hperm.mem_iff.2 hq
  have : mkConfigLevels cfg = List.insertionSort (fun a b => a.1 ≤ b.1) e := by
    unfold mkConfigLevels
    rw [hd]
  rw [this]
  exact ⟨⟨hs_lt, hs_bounds⟩, List.ne_nil_of_mem hq',
    getLastD_key_of_max hs_lt hq' hq255 (fun p hp => (hs_bounds p hp).2.1)⟩

/-! ### The controller: `LightenerLight` -/

/-- Observed state string of a controlled entity, as stored in the host state
machine: HA state objects report `"on"`, `"off"`, `"unavailable"` or
`"unknown"` in their `state` field. -/
inductive EntState
  | on
  | off
  | unavailable
  | unknown
  deriving DecidableEq, Repr

/-- A state object returned by `hass.states.get`: the state string and the
`ATTR_BRIGHTNESS` entry of its attributes (`none` = attribute missing,
`some none` = attribute present with value `None`, `some (some b)` =
a brightness value). -/
structure RawState where
  status : EntState
  brightnessAttr : Option (Option ℕ)
  deriving DecidableEq, Repr

/-- A controlled light as seen by the controller: its translation tables, its
resolved kind, and the result of `hass.states.get(entity_id)` (`none` when
the entity does not exist in the state registry). -/
structure ControlledLight where
  tables : BuildState
  isOnOff : Bool
  obs : Option RawState
  deriving DecidableEq, Repr

/-- Lines 279-284: `entity_brightness = state.attributes.get(ATTR_BRIGHTNESS, 255)`
when the state string is exactly `"on"`, else `0`. -/
def observed_brightness (s : RawState) : Option ℕ :=
  if s.status = EntState.on then s.brightnessAttr.getD (some 255) else some 0

/-- Lines 271-297: the `levels` list of candidate-set votes, one entry per
controlled light whose state object exists (`state is not None`); a light
whose state object exists votes even when its state is `"unavailable"` or
`"unknown"` (those fall into the `else` branch, brightness `0`), while a
present brightness attribute of `None` votes the empty list. -/
def lightVotes : List ControlledLight → List (List ℤ)
  | [] => []
  | l :: rest =>
      match l.obs with
      | none => lightVotes rest
      | some s =>
          (match observed_brightness s with
           | some b => translate_brightness_back l.tables l.isOnOff (some b)
           | none => []) :: lightVotes rest

/-- The group on-state recomputed by `super().async_update_group_state()`:
the group is on when some member reports `"on"`. -/
def groupIsOn (lights : List ControlledLight) : Bool :=
  lights.any (fun l =>
    match l.obs with
    | some s => s.status = EntState.on
    | none => false)

/-- Models `set.intersection(*map(set, levels))` (lines 301-305) member for
member; the Python value is an unordered set, the embedding keeps the first
voter's order. -/
def interAll : List (List ℤ) → List ℤ
  | [] => []
  | v :: vs => v.filter (fun x => vs.all (fun w => x ∈ w))

/-- Lines 266-311 given the votes: `common_level` stays `None` unless the
controller is on and at least one light voted; `{pref}` wins when `pref` is
in every vote; `common_level.pop()` takes an arbitrary member of the Python
set — the embedding takes the head of `interAll`, and no theorem depends on
which member is chosen. -/
def updateBrightnessCalc (isOn : Bool) (pref : Option ℤ)
    (votes : List (List ℤ)) : Option ℤ :=
  let common : Option (List ℤ) :=
    if isOn = true ∧ votes ≠ [] then
      some (match pref with
            | some p => if votes.all (fun w => p ∈ w) then [p] else interAll votes
            | none => interAll votes)
    else none
  match common with
  | some (a :: _) => some a
  | _ => if isOn = true then pref else none

/-- The mutable controller state of a `LightenerLight`: `_attr_brightness`,
`_prefered_brightness`, `_is_frozen`, `_attr_is_on` as maintained by the
group superclass, and a counter of host state-machine writes.  Color-mode
bookkeeping (lines 319-331) is omitted: no claim refers to it. -/
structure CtrlState where
  attr_brightness : Option ℤ
  prefered_brightness : Option ℤ
  is_frozen : Bool
  is_on : Bool
  published : ℕ
  deriving DecidableEq, Repr

/-- Models `LightenerLight.async_update_group_state` (lines 256-331): returns
immediately while `_is_frozen`; otherwise recomputes the group on-state (the
`super()` call) and the displayed brightness from the observed states of the
controlled lights. -/
def async_update_group_state (s : CtrlState) (lights : List ControlledLight) :
    CtrlState :=
  if s.is_frozen then s
  else
    { s with
      is_on := groupIsOn lights
      attr_brightness :=
        updateBrightnessCalc (groupIsOn lights) s.prefered_brightness
          (lightVotes lights) }

/-- Models `LightenerLight.async_write_ha_state` (lines 333-342): returns immediately
while `_is_frozen`; otherwise one state write to the host. -/
def async_write_ha_state (s : CtrlState) : CtrlState :=
  if s.is_frozen then s else { s with published := s.published + 1 }

/-- A state-change notification from a controlled light while the listener is
active: the group machinery re-runs `async_update_group_state` and then
`async_write_ha_state`. -/
def onStateChange (s : CtrlState) (lights : List ControlledLight) : CtrlState :=
  async_write_ha_state (async_update_group_state s lights)

/-- A per-light service call issued by `async_turn_on`: `turn_on = false`
means the `turn_off` service was used instead (translated brightness `0`);
`brightness` is the `ATTR_BRIGHTNESS` value carried in the service data
(absent for `turn_off`, and absent when no brightness was resolved). -/
structure LightCmd where
  turn_on : Bool
  brightness : Option ℤ
  deriving DecidableEq, Repr

/-- Python truthiness of `self._attr_brightness` (line 169). -/
def truthy (o : Option ℤ) : Bool :=
  match o with
  | some v => v ≠ 0
  | none => false

/-- The loop body of lines 188-228 for one entity, given the resolved
controller brightness. -/
def perLightCmd (b : Option ℤ) (l : ControlledLight) : LightCmd :=
  if b.map (fun v => translate_brightness l.tables l.isOnOff v.toNat) = some 0 then
    { turn_on := false, brightness := none }
  else
    { turn_on := true
      brightness := b.map (fun v => translate_brightness l.tables l.isOnOff v.toNat) }

/-- Result of an `async_turn_on` call: final controller state, the service
calls issued, and whether the call raised. -/
structure TurnOnResult where
  state : CtrlState
  cmds : List LightCmd
  raised : Bool
  deriving DecidableEq, Repr

/-- Models `LightenerLight.async_turn_on` (lines 154-232).  `kwB` is
`kwargs.get(ATTR_BRIGHTNESS)`; `failAt = some k` (with `k < lights.length`)
means the `k`-th per-light service call raises, so the exception propagates
out of the `for` loop and the statements after it — unfreezing, the
reconciliation pass and the state publication — do not run.  A successful
loop unfreezes, reconciles against the observed states in `lights` and
publishes. -/
def async_turn_on (s : CtrlState) (lights : List ControlledLight)
    (kwB : Option ℤ) (failAt : Option ℕ) : TurnOnResult :=
  -- lines 166-178: resolve the brightness, update the stored attributes
  let s1 : CtrlState :=
    if kwB = none ∧ truthy s.attr_brightness then s
    else { s with attr_brightness := kwB }
  let b1 : Option ℤ :=
    if kwB = none ∧ truthy s.attr_brightness then s.attr_brightness else kwB
  let s2 : CtrlState :=
    if b1 = none then s1 else { s1 with prefered_brightness := b1 }
  let b2 : Option ℤ := if b1 = none then s1.prefered_brightness else b1
  -- line 186: freeze
  let s3 : CtrlState := { s2 with is_frozen := true }
  match failAt with
  | some k =>
      if k < lights.length then
        { state := s3, cmds := (lights.take k).map (perLightCmd b2), raised := true }
      else
        { state := onStateChange { s3 with is_frozen := false } lights
          cmds := lights.map (perLightCmd b2)
          raised := false }
  | none =>
      { state := onStateChange { s3 with is_frozen := false } lights
        cmds := lights.map (perLightCmd b2)
        raised := false }

/-- Models `LightenerLight.async_turn_off` (lines 234-246): freeze, remember the
current brightness as the preferred one, delegate to the group `turn_off`
(one service call, which may raise — `fails = true`), then unfreeze,
reconcile and publish.  Returns the final state and whether the call
raised. -/
def async_turn_off (s : CtrlState) (lights : List ControlledLight)
    (fails : Bool) : CtrlState × Bool :=
  let s1 : CtrlState := { s with is_frozen := true }
  let s2 : CtrlState := { s1 with prefered_brightness := s1.attr_brightness }
  if fails then (s2, true)
  else (onStateChange { s2 with is_frozen := false } lights, false)

/-! ### Bridging lemmas used by the claim theorems -/

theorem translate_brightness_dim (tb : BuildState) (b : ℕ) :
    translate_brightness tb false b = tb.levels.getD b 0 := rfl

theorem translate_brightness_onoff (tb : BuildState) (b : ℕ) :
    translate_brightness tb true b = tb.levels_on_off.getD b 0 := rfl

theorem translate_back_dim (tb : BuildState) (b : ℕ) :
    translate_brightness_back tb false (some b) = tb.to_lightener_levels.getD b [] :=
  rfl

theorem pointAppend_prevC (C L : ℕ) (st1 : BuildState) :
    (pointAppend C L st1).prevC = st1.prevC := rfl

theorem pointAppend_prevL (C L : ℕ) (st1 : BuildState) :
    (pointAppend C L st1).prevL = st1.prevL := rfl

theorem pointAppend_tll (C L : ℕ) (st1 : BuildState) :
    (pointAppend C L st1).to_lightener_levels =
      setApp st1.to_lightener_levels L (C : ℤ) := rfl

/-- The integer interpolation used by the build equals the rational ceiling
expression written in the specification. -/
theorem interpValue_eq_ceil {x0 x1 : ℕ} (y0 y1 i : ℕ) (h : x0 < x1) :
    interpValue x0 y0 x1 y1 i =
      ⌈(y0 : ℚ) + ((y1 : ℚ) - (y0 : ℚ)) * ((i : ℚ) - (x0 : ℚ)) /
        ((x1 : ℚ) - (x0 : ℚ))⌉ := by
  have hden : ((x1 : ℤ) - (x0 : ℤ)) ≠ 0 := by omega
  unfold interpValue
  rw [cdiv_eq_ceil _ _ hden]
  have hcast : ((((y1 : ℤ) - (y0 : ℤ)) * ((i : ℤ) - (x0 : ℤ)) : ℤ) : ℚ) /
      ((((x1 : ℤ) - (x0 : ℤ)) : ℤ) : ℚ) =
      ((y1 : ℚ) - (y0 : ℚ)) * ((i : ℚ) - (x0 : ℚ)) / ((x1 : ℚ) - (x0 : ℚ)) := by
    push_cast
    ring
  rw [hcast]
  have hy0 : ((y0 : ℕ) : ℚ) = (((y0 : ℕ) : ℤ) : ℚ) := by push_cast; ring
  rw [hy0, add_comm (((y0 : ℕ) : ℤ) : ℚ), Int.ceil_add_int, add_comm]

theorem prevPt_key_lt {pts : List (ℕ × ℕ)} (hv : ValidChain pts) {k : ℕ}
    (hk : k < pts.length) :
    (prevPt pts k).1 < (pts.getD k (0, 0)).1 := by
  unfold prevPt
  rcases eq_or_ne k 0 with rfl | hne
  · rw [if_pos rfl]
    have hmem : pts.getD 0 (0, 0) ∈ pts := by
      rw [getD_eq_get hk]
      exact List.get_mem _ _ _
    have := (hv.2 _ hmem).1
    omega
  · rw [if_neg hne]
    have h1 : k - 1 < pts.length := by omega
    rw [getD_eq_get h1, getD_eq_get hk]
    exact List.pairwise_iff_get.1 hv.1 ⟨k - 1, h1⟩ ⟨k, hk⟩ (Fin.mk_lt_mk.2 (by omega))

theorem all_mem_interAll {p : ℤ} {votes : List (List ℤ)} (hne : votes ≠ [])
    (hall : votes.all (fun w => p ∈ w) = true) : p ∈ interAll votes := by
  cases votes with
  | nil => exact absurd rfl hne
  | cons v vs =>
      rw [List.all_cons, Bool.and_eq_true] at hall
      unfold interAll
      rw [List.mem_filter]
      exact ⟨by simpa using hall.1, hall.2⟩

/-! ### The claims -/

set_option maxRecDepth 4000

/-- C1: the claim says `forward[0] = 0` and `forward[255] = 255` for every
calibration table.  The first half is unconditional and holds even here, but
the second fails when the table maps controller percent `100` to a light
percent other than `100`: nothing re-adds the `255 ↦ 255` endpoint then.
This counterexample uses the legal table `{100: 40}`, for which
`translate(0) = 0` but `translate(255) = 102 ≠ 255`. -/
theorem C1_forward_endpoints_counterexample :
    translate_brightness (buildTables (mkConfigLevels [(100, 40)])) false 0 = 0 ∧
      translate_brightness (buildTables (mkConfigLevels [(100, 40)])) false 255 ≠ 255 := by
  have hmk : mkConfigLevels [(100, 40)] = [(255, 102)] := by decide
  rw [hmk]
  have hvc : ValidChain [(255, 102)] := by
    unfold ValidChain
    exact ⟨by decide, by decide⟩
  have hpt : (buildTables [(255, 102)]).levels.getD 255 0 = (102 : ℤ) := by
    have := buildTables_point_value hvc (k := 0) (by decide)
    simpa using this
  constructor
  · rw [translate_brightness_dim]
    exact buildTables_getD_zero hvc
  · rw [translate_brightness_dim, hpt]
    decide

/-- C1 (amended): `forward[0] = 0` holds for every calibration table, with no
condition on its last point; `forward[255] = 255` holds whenever the last
converted calibration point maps to light level `255` — in particular
whenever the percent table omits controller level `100`, since
`setdefault(255, 255)` then adds the implicit endpoint. -/
theorem C1_forward_endpoints (pts : List (ℕ × ℕ)) (hv : ValidConfig pts) :
    translate_brightness (buildTables pts) false 0 = 0 ∧
      ((pts.getLastD (0, 0)).2 = 255 →
        translate_brightness (buildTables pts) false 255 = 255) := by
  constructor
  · rw [translate_brightness_dim]
    exact buildTables_getD_zero hv.1
  · intro hlast
    rw [translate_brightness_dim]
    have hk : pts.length - 1 < pts.length := by
      have := List.length_pos.2 hv.2.1
      omega
    have := buildTables_point_value hv.1 hk
    rw [getD_last hv.2.1, hv.2.2, hlast] at this
    exact this

theorem C1_forward_endpoints_witness :
    (translate_brightness (buildTables [(255, 255)]) false 0 = 0 ∧
        translate_brightness (buildTables [(255, 255)]) false 255 = 255) ∧
      translate_brightness (buildTables [(255, 102)]) false 0 = 0 :=
  ⟨⟨(C1_forward_endpoints [(255, 255)]
        (by unfold ValidConfig ValidChain; exact ⟨⟨by decide, by decide⟩, by decide, by decide⟩)).1,
      (C1_forward_endpoints [(255, 255)]
        (by unfold ValidConfig ValidChain; exact ⟨⟨by decide, by decide⟩, by decide, by decide⟩)).2
        (by decide)⟩,
    (C1_forward_endpoints [(255, 102)]
        (by unfold ValidConfig ValidChain; exact ⟨⟨by decide, by decide⟩, by decide, by decide⟩)).1⟩

/-- C2: the claim says every controller level `c ∈ [0, 255]` satisfies
`c ∈ translateBack(translate(c))`.  It fails at `c = 0` when the first
calibration point maps to light level `0`: the reverse-interpolation loop of
the first segment is then empty, and no later loop records controller level
`0` in bucket `0`.  For the table `{1: 0}` (converted `[(3,0),(255,255)]`)
the bucket of `translate(0) = 0` is `[1, 2, 3]`, which misses `0`. -/
theorem C2_roundtrip_counterexample :
    (0 : ℤ) ∉ translate_brightness_back (buildTables (mkConfigLevels [(1, 0)])) false
      (some (translate_brightness (buildTables (mkConfigLevels [(1, 0)])) false 0).toNat) := by
  have hmk : mkConfigLevels [(1, 0)] = [(3, 0), (255, 255)] := by decide
  rw [hmk]
  have hbt : buildTables [(3, 0), (255, 255)] =
      processPoint (processPoint initState 3 0) 255 255 := rfl
  rw [hbt]
  have f_tll : (processPoint initState 3 0).to_lightener_levels.getD 0 [] = [1, 2, 3] := by
    decide
  have f_prevC : (processPoint initState 3 0).prevC = 3 := by decide
  have f_prevL : (processPoint initState 3 0).prevL = 0 := by decide
  have f_len : (processPoint initState 3 0).levels.length = 4 := by decide
  have f_getD0 : (processPoint initState 3 0).levels.getD 0 0 = 0 := by decide
  -- the forward value at controller level 0 stays 0 through the second point
  have hval : (processPoint (processPoint initState 3 0) 255 255).levels.getD 0 0 = 0 := by
    rw [processPoint_levels_getD_lt _ 255 255 (by rw [f_len]; omega), f_getD0]
  -- bucket 0 after the forward loop of the second segment
  have hne : ∀ i ∈ pyRange (3 + 1) 255,
      (interpValue (processPoint initState 3 0).prevC
        (processPoint initState 3 0).prevL 255 255 i).toNat ≠ 0 := by
    intro i hi
    obtain ⟨h1, h2⟩ := of_mem_pyRange hi
    rw [f_prevC, f_prevL]
    have hpos : 0 < interpValue 3 0 255 255 i :=
      interpValue_pos (by omega) (by omega) (by omega) rfl
    omega
  have hfwd : ((pyRange (3 + 1) 255).foldl
      (forwardStep 255 255) (processPoint initState 3 0)).to_lightener_levels.getD 0 []
      = [1, 2, 3] := by
    rw [fwdFold_tll_getD_ne 255 255 0 _ _ hne, f_tll]
  -- bucket 0 after recording the point (255, 255) itself
  have hpa : (pointAppend 255 255 ((pyRange (3 + 1) 255).foldl
      (forwardStep 255 255) (processPoint initState 3 0))).to_lightener_levels.getD 0 []
      = [1, 2, 3] := by
    rw [pointAppend_tll, getD_setApp_ne _ _ (by omega), hfwd]
  -- the reverse loop: its first index is light level 0, whose computed
  -- controller level 3 is already recorded, so the append is skipped;
  -- all later indices touch other buckets
  have hskip : reverseStep 255 255 (pointAppend 255 255
      ((pyRange (3 + 1) 255).foldl
        (forwardStep 255 255) (processPoint initState 3 0))) 0 =
      pointAppend 255 255 ((pyRange (3 + 1) 255).foldl
        (forwardStep 255 255) (processPoint initState 3 0)) := by
    apply reverseStep_skip
    rw [pointAppend_prevL, pointAppend_prevC, fwdFold_prevL, fwdFold_prevC,
      f_prevL, f_prevC, hpa]
    decide
  have hbucket : (processPoint (processPoint initState 3 0) 255 255).to_lightener_levels.getD 0 []
      = [1, 2, 3] := by
    rw [processPoint_tll_eq, f_prevL, f_prevC]
    have hrr : revRange 0 255 = 0 :: List.range' 1 254 := rfl
    rw [hrr, List.foldl_cons, hskip, revFold_tll_getD_ne 255 255 0 _ _ (by
      intro i hi
      rw [List.mem_range'_1] at hi
      omega), hpa]
  rw [translate_brightness_dim, hval, Int.toNat_zero, translate_back_dim, hbucket]
  decide

/-- C2 (amended): for every calibration table and every controller level
`c ∈ [1, 255]`, `c ∈ translateBack(translate(c))` for a dimmable light; the
forward loop records each interior level in the bucket of its own value and
each calibration point in the bucket of its configured value.  (At `c = 0`
the property can fail when the first calibration point maps to light level
`0`; see the counterexample.) -/
theorem C2_roundtrip (pts : List (ℕ × ℕ)) (hv : ValidConfig pts) (c : ℕ)
    (h1 : 1 ≤ c) (h2 : c ≤ 255) :
    (c : ℤ) ∈ translate_brightness_back (buildTables pts) false
      (some (translate_brightness (buildTables pts) false c).toNat) := by
  rw [translate_brightness_dim, translate_back_dim]
  exact buildTables_roundtrip hv h1 h2

theorem C2_roundtrip_witness :
    (100 : ℤ) ∈ translate_brightness_back (buildTables [(255, 255)]) false
      (some (translate_brightness (buildTables [(255, 255)]) false 100).toNat) :=
  C2_roundtrip [(255, 255)]
    (by unfold ValidConfig ValidChain; exact ⟨⟨by decide, by decide⟩, by decide, by decide⟩)
    100 (by decide) (by decide)

/-- C8: for every calibration segment from `(prevC, prevL)` to `(C, L)` and
every controller level `i` strictly between them, the built forward table
stores the upward-rounded interpolation
`⌈prevL + (L - prevL) (i - prevC) / (C - prevC)⌉`, while `forward[C] = L`
exactly at each calibration point. -/
theorem C8_segment_ceil (pts : List (ℕ × ℕ)) (hv : ValidConfig pts) (k : ℕ)
    (hk : k < pts.length) :
    (∀ i : ℕ, (prevPt pts k).1 < i → i < (pts.getD k (0, 0)).1 →
      (buildTables pts).levels.getD i 0 =
        ⌈((prevPt pts k).2 : ℚ) +
          (((pts.getD k (0, 0)).2 : ℚ) - ((prevPt pts k).2 : ℚ)) *
            ((i : ℚ) - ((prevPt pts k).1 : ℚ)) /
            (((pts.getD k (0, 0)).1 : ℚ) - ((prevPt pts k).1 : ℚ))⌉) ∧
    (buildTables pts).levels.getD (pts.getD k (0, 0)).1 0 =
      ((pts.getD k (0, 0)).2 : ℤ) := by
  have hseg := (buildTables_spec pts hv.1).seg k hk
  refine ⟨?_, hseg.2⟩
  intro i hi1 hi2
  rw [hseg.1 i hi1 hi2]
  exact interpValue_eq_ceil _ _ _ (prevPt_key_lt hv.1 hk)

theorem C8_segment_ceil_witness :
    (buildTables [(255, 255)]).levels.getD 100 0 =
      ⌈((prevPt [(255, 255)] 0).2 : ℚ) +
        ((([((255 : ℕ), (255 : ℕ))].getD 0 (0, 0)).2 : ℚ) - ((prevPt [(255, 255)] 0).2 : ℚ)) *
          ((100 : ℚ) - ((prevPt [(255, 255)] 0).1 : ℚ)) /
          ((([((255 : ℕ), (255 : ℕ))].getD 0 (0, 0)).1 : ℚ) - ((prevPt [(255, 255)] 0).1 : ℚ))⌉ :=
  (C8_segment_ceil [(255, 255)]
    (by unfold ValidConfig ValidChain; exact ⟨⟨by decide, by decide⟩, by decide, by decide⟩)
    0 (by decide)).1 100 (by decide) (by decide)

/-- C9: the claim says an on/off light translates to `0` below the first
point mapping to a non-zero light level and to `255` for every other
controller level.  The second part fails for non-monotone tables: for
`{40: 100, 100: 0}` (converted `[(102, 255), (255, 0)]`), the dimmable curve
is `255` at controller level `102`, so level `255` is not below the first
non-zero point — yet `translate(255) = 0` for the on/off table, because the
dimmable value there is the configured `0`. -/
theorem C9_onoff_counterexample :
    0 < translate_brightness (buildTables (mkConfigLevels [(40, 100), (100, 0)])) false 102 ∧
      translate_brightness (buildTables (mkConfigLevels [(40, 100), (100, 0)])) true 255 = 0 := by
  have hmk : mkConfigLevels [(40, 100), (100, 0)] = [(102, 255), (255, 0)] := by decide
  rw [hmk]
  have hvc : ValidChain [(102, 255), (255, 0)] := by
    unfold ValidChain
    exact ⟨by decide, by decide⟩
  have h0 : (buildTables [(102, 255), (255, 0)]).levels.getD 102 0 = (255 : ℤ) := by
    have := buildTables_point_value hvc (k := 0) (by decide)
    simpa using this
  have h1 : (buildTables [(102, 255), (255, 0)]).levels.getD 255 0 = (0 : ℤ) := by
    have := buildTables_point_value hvc (k := 1) (by decide)
    simpa using this
  constructor
  · rw [translate_brightness_dim, h0]
    decide
  · rw [translate_brightness_onoff, buildTables_onoff_pointwise hvc 255, h1,
      if_pos rfl]

/-- C9 (amended): for an on/off light, `translate(c)` is `0` exactly where
the dimmable curve maps `c` to `0` and `255` everywhere else — never an
intermediate value.  (For non-decreasing curves this coincides with "0 below
the first controller level with non-zero light value".) -/
theorem C9_onoff_collapse (pts : List (ℕ × ℕ)) (hv : ValidConfig pts) (c : ℕ) :
    translate_brightness (buildTables pts) true c =
      (if translate_brightness (buildTables pts) false c = 0 then 0 else 255) := by
  rw [translate_brightness_onoff, translate_brightness_dim]
  exact buildTables_onoff_pointwise hv.1 c

theorem C9_onoff_collapse_witness :
    translate_brightness (buildTables [(255, 255)]) true 128 =
      (if translate_brightness (buildTables [(255, 255)]) false 128 = 0 then 0 else 255) :=
  C9_onoff_collapse [(255, 255)]
    (by unfold ValidConfig ValidChain; exact ⟨⟨by decide, by decide⟩, by decide, by decide⟩)
    128

/-- C10: for every calibration table with controller percentages in
`[1, 100]` (pairwise distinct, as dictionary keys are) and light percentages
in `[0, 100]`, both forward lookup arrays have exactly 256 entries, each an
integer in `[0, 255]`: `translate` is total on `[0, 255]` and always returns
a valid brightness, for dimmable and on/off lights alike. -/
theorem C10_tables_total (cfg : List (ℕ × ℕ))
    (hk : ∀ p ∈ cfg, 1 ≤ p.1 ∧ p.1 ≤ 100 ∧ p.2 ≤ 100)
    (hdist : cfg.Pairwise (fun a b => a.1 ≠ b.1)) :
    (buildTables (mkConfigLevels cfg)).levels.length = 256 ∧
      (buildTables (mkConfigLevels cfg)).levels_on_off.length = 256 ∧
      (∀ v ∈ (buildTables (mkConfigLevels cfg)).levels, 0 ≤ v ∧ v ≤ 255) ∧
      (∀ v ∈ (buildTables (mkConfigLevels cfg)).levels_on_off, 0 ≤ v ∧ v ≤ 255) := by
  have hvc := mkConfigLevels_valid cfg hk hdist
  have S := buildTables_spec _ hvc.1
  have hlen := buildTables_levels_length hvc
  refine ⟨hlen, ?_, S.bounds, ?_⟩
  · rw [S.oo_map, List.length_map, hlen]
  · intro v hv
    rw [S.oo_map] at hv
    obtain ⟨u, _, rfl⟩ := List.mem_map.1 hv
    unfold onOffCollapse
    split <;> omega

theorem C10_tables_total_witness :
    (buildTables (mkConfigLevels [(50, 75)])).levels.length = 256 ∧
      (buildTables (mkConfigLevels [(50, 75)])).levels_on_off.length = 256 ∧
      (∀ v ∈ (buildTables (mkConfigLevels [(50, 75)])).levels, 0 ≤ v ∧ v ≤ 255) ∧
      (∀ v ∈ (buildTables (mkConfigLevels [(50, 75)])).levels_on_off, 0 ≤ v ∧ v ≤ 255) :=
  C10_tables_total [(50, 75)] (by decide) (by decide)

/-- C3: the claim says a light whose observed state is unknown or unavailable
is excluded from the candidate-set voting entirely and never treated as
brightness `0`.  The code only skips lights whose state object is absent
(`hass.states.get` returned `None`, lines 275-276); a light that reports an
explicit `"unavailable"` state falls into the `else` branch of the
`state.state == STATE_ON` test (line 284) and votes with brightness `0`.
Concretely: with one light on at brightness `128` and one light reporting
`"unavailable"`, the vote list has an entry for the unavailable light, and
that entry is `translateBack(0)`. -/
theorem C3_unavailable_votes_counterexample :
    lightVotes
        [⟨buildTables (mkConfigLevels []), false, some ⟨EntState.on, some (some 128)⟩⟩,
          ⟨buildTables (mkConfigLevels []), false, some ⟨EntState.unavailable, none⟩⟩] =
      [translate_brightness_back (buildTables (mkConfigLevels [])) false (some 128),
        translate_brightness_back (buildTables (mkConfigLevels [])) false (some 0)] :=
  rfl

/-- C3 (amended): a controlled light is excluded from the candidate-set
voting exactly when its state object is absent (`hass.states.get` returns
`None`): such a light contributes no candidate set.  A present state object
always votes, even when its state string is `"unavailable"` or `"unknown"`
(then with brightness `0`, see the counterexample). -/
theorem C3_skip_missing_state (l : ControlledLight) (rest : List ControlledLight)
    (h : l.obs = none) : lightVotes (l :: rest) = lightVotes rest := by
  obtain ⟨tb, oo, obs⟩ := l
  cases obs with
  | none => rfl
  | some s => exact absurd h (by simp)

theorem C3_skip_missing_state_witness :
    lightVotes [⟨buildTables (mkConfigLevels []), false, none⟩] = lightVotes [] :=
  C3_skip_missing_state ⟨buildTables (mkConfigLevels []), false, none⟩ [] rfl

/-- C4: code behavior at a failing per-light command.  `async_turn_on` sets
`_is_frozen = True` before the loop (line 186) and clears it only in the
straight-line code after the loop (line 230); there is no `try`/`finally`.
When the service call for the first light raises, the exception propagates:
the controller stays frozen, no reconciliation runs and nothing is published
(`published` stays `0`) — whereas the same call without a failure unfreezes
and publishes.  This contradicts the claim (and §7 of the specification),
which require the suspended flag to be cleared and a reconciliation pass to
run even when a command fails. -/
theorem C4_failed_command_leaves_frozen :
    (async_turn_on ⟨none, none, false, false, 0⟩
        [⟨buildTables (mkConfigLevels []), false, none⟩] (some 128) (some 0)).state.is_frozen = true ∧
      (async_turn_on ⟨none, none, false, false, 0⟩
          [⟨buildTables (mkConfigLevels []), false, none⟩] (some 128) (some 0)).state.published = 0 ∧
      (async_turn_on ⟨none, none, false, false, 0⟩
          [⟨buildTables (mkConfigLevels []), false, none⟩] (some 128) (some 0)).raised = true ∧
      (async_turn_on ⟨none, none, false, false, 0⟩
          [⟨buildTables (mkConfigLevels []), false, none⟩] (some 128) none).state.is_frozen = false ∧
      (async_turn_on ⟨none, none, false, false, 0⟩
          [⟨buildTables (mkConfigLevels []), false, none⟩] (some 128) none).state.published = 1 :=
  ⟨rfl, rfl, rfl, rfl, rfl⟩

/-- C5: while `_is_frozen` is set (it is set before the first per-light
command of a `setBrightness` transaction and cleared after the last), a
state-change notification from a controlled light leaves the controller
state unchanged: `async_update_group_state` returns immediately, so the
displayed brightness cannot change, and `async_write_ha_state` publishes
nothing. -/
theorem C5_frozen_suppresses_read (s : CtrlState) (lights : List ControlledLight)
    (h : s.is_frozen = true) :
    async_update_group_state s lights = s ∧ async_write_ha_state s = s ∧
      onStateChange s lights = s := by
  have h1 : async_update_group_state s lights = s := by
    unfold async_update_group_state
    rw [if_pos h]
  have h2 : async_write_ha_state s = s := by
    unfold async_write_ha_state
    rw [if_pos h]
  refine ⟨h1, h2, ?_⟩
  unfold onStateChange
  rw [h1, h2]

theorem C5_frozen_suppresses_read_witness :
    async_update_group_state ⟨some 1, some 2, true, true, 0⟩ [] =
        ⟨some 1, some 2, true, true, 0⟩ ∧
      async_write_ha_state ⟨some 1, some 2, true, true, 0⟩ =
        ⟨some 1, some 2, true, true, 0⟩ ∧
      onStateChange ⟨some 1, some 2, true, true, 0⟩ [] =
        ⟨some 1, some 2, true, true, 0⟩ :=
  C5_frozen_suppresses_read ⟨some 1, some 2, true, true, 0⟩ [] rfl

/-- C6: in reconciliation, when the controller is on and the preferred
brightness belongs to every voting light's candidate set, the displayed
brightness is set to the preferred brightness (the `{pref}.intersection(...)`
test of line 301 selects `{pref}` as the common level, and popping that
singleton yields `pref`). -/
theorem C6_preferred_tiebreak (s : CtrlState) (lights : List ControlledLight)
    (p : ℤ) (hfr : s.is_frozen = false) (hon : groupIsOn lights = true)
    (hne : lightVotes lights ≠ []) (hpref : s.prefered_brightness = some p)
    (hall : ∀ w ∈ lightVotes lights, p ∈ w) :
    (async_update_group_state s lights).attr_brightness = some p := by
  have hb : (lightVotes lights).all (fun w => p ∈ w) = true := by
    rw [List.all_eq_true]
    intro w hw
    exact decide_eq_true (hall w hw)
  have key : updateBrightnessCalc true (some p) (lightVotes lights) = some p := by
    unfold updateBrightnessCalc
    rw [if_pos ⟨rfl, hne⟩]
    dsimp only
    rw [hb]
    rfl
  unfold async_update_group_state
  rw [if_neg (by rw [hfr]; exact Bool.false_ne_true)]
  show updateBrightnessCalc (groupIsOn lights) s.prefered_brightness
    (lightVotes lights) = some p
  rw [hon, hpref]
  exact key

theorem C6_preferred_tiebreak_witness :
    (async_update_group_state ⟨none, some 5, false, false, 0⟩
        [⟨⟨[0], [0], [[5]], [[5]], 0, 0⟩, false,
            some ⟨EntState.on, some (some 0)⟩⟩]).attr_brightness = some 5 :=
  C6_preferred_tiebreak ⟨none, some 5, false, false, 0⟩
    [⟨⟨[0], [0], [[5]], [[5]], 0, 0⟩, false, some ⟨EntState.on, some (some 0)⟩⟩]
    5 rfl rfl (by decide) rfl (by decide)

/-- C7: in reconciliation, when the controller is on but the intersection of
the voting lights' candidate sets is empty, the displayed brightness falls
back to the preferred brightness — including staying unset when the
preferred brightness is unset.  (The `{pref}` test of line 301 cannot
succeed either: `pref` in every vote would put it in the intersection.) -/
theorem C7_empty_intersection_fallback (s : CtrlState)
    (lights : List ControlledLight) (hfr : s.is_frozen = false)
    (hon : groupIsOn lights = true) (hne : lightVotes lights ≠ [])
    (hempty : interAll (lightVotes lights) = []) :
    (async_update_group_state s lights).attr_brightness =
      s.prefered_brightness := by
  unfold async_update_group_state
  rw [if_neg (by rw [hfr]; exact Bool.false_ne_true)]
  show updateBrightnessCalc (groupIsOn lights) s.prefered_brightness
    (lightVotes lights) = s.prefered_brightness
  rw [hon]
  unfold updateBrightnessCalc
  rw [if_pos ⟨rfl, hne⟩]
  cases hpref : s.prefered_brightness with
  | none =>
      dsimp only
      rw [hempty]
      rfl
  | some p =>
      dsimp only
      by_cases hall : (lightVotes lights).all (fun w => p ∈ w) = true
      · exact absurd (all_mem_interAll hne hall)
          (by rw [hempty]; exact List.not_mem_nil p)
      · rw [if_neg hall, hempty]
        rfl

theorem C7_empty_intersection_fallback_witness :
    (async_update_group_state ⟨none, some 7, false, false, 0⟩
        [⟨⟨[0], [0], [[1]], [[1]], 0, 0⟩, false, some ⟨EntState.on, some (some 0)⟩⟩,
          ⟨⟨[0], [0], [[2]], [[2]], 0, 0⟩, false,
            some ⟨EntState.on, some (some 0)⟩⟩]).attr_brightness = some 7 :=
  C7_empty_intersection_fallback ⟨none, some 7, false, false, 0⟩
    [⟨⟨[0], [0], [[1]], [[1]], 0, 0⟩, false, some ⟨EntState.on, some (some 0)⟩⟩,
      ⟨⟨[0], [0], [[2]], [[2]], 0, 0⟩, false, some ⟨EntState.on, some (some 0)⟩⟩]
    rfl rfl (by decide) (by decide)

end Lightener
